import Mathlib

/-!
# Verification of `ctrl/srt/srt_CentroidMode.cpp` (AnimeEffects)

A shallow embedding of the centroid-handle manipulator: its per-frame
`updateCursor` state machine, the undo-coalescing `moveCentroid` protocol,
and the `pushEventTarget` enumeration, together with theorems settling the
specification claims.

Scalars are `ℚ` (the source uses `float`; the claims are about control
flow, clamping and exact coordinate formulas, none of which depend on
rounding). Matrices are 2D affine maps, matching the effective use of
`QMatrix4x4` on `(x, y, 0, 1)` vectors in this file of the source.
-/

namespace AeSrt

/-- Planar vector, embedding `QVector2D` (`QVector3D` values in the source are
only ever built from and collapsed back to their x/y components). -/
structure Vec2 where
  x : ℚ
  y : ℚ
  deriving DecidableEq, Repr

instance : Add Vec2 := ⟨fun u v => ⟨u.x + v.x, u.y + v.y⟩⟩
instance : Sub Vec2 := ⟨fun u v => ⟨u.x - v.x, u.y - v.y⟩⟩

def Vec2.zero : Vec2 := ⟨0, 0⟩

/-- Squared Euclidean length; lengths are compared through their squares to
stay inside `ℚ` (the source compares `length() <= kCrossRadius` with a
nonnegative camera scale, which is equivalent to the squared comparison). -/
def Vec2.lengthSq (v : Vec2) : ℚ := v.x * v.x + v.y * v.y

/-- Planar affine transform `[[a b tx] [c d ty] [0 0 1]]`, embedding the
`QMatrix4x4` values (`mtx`, `locSRMtx`, `locMtx`) as they act on the plane. -/
structure Mtx where
  a : ℚ
  b : ℚ
  c : ℚ
  d : ℚ
  tx : ℚ
  ty : ℚ
  deriving DecidableEq, Repr

def Mtx.id : Mtx := ⟨1, 0, 0, 1, 0, 0⟩

def Mtx.apply (m : Mtx) (v : Vec2) : Vec2 :=
  ⟨m.a * v.x + m.b * v.y + m.tx, m.c * v.x + m.d * v.y + m.ty⟩

def Mtx.mul (m n : Mtx) : Mtx :=
  ⟨m.a * n.a + m.b * n.c, m.a * n.b + m.b * n.d,
   m.c * n.a + m.d * n.c, m.c * n.b + m.d * n.d,
   m.a * n.tx + m.b * n.ty + m.tx,
   m.c * n.tx + m.d * n.ty + m.ty⟩

def Mtx.det (m : Mtx) : ℚ := m.a * m.d - m.b * m.c

/-- Embeds `QMatrix4x4::inverted(bool *invertible)`: returns the inverse and
`true` when the matrix is invertible, and the identity paired with `false`
when it is singular. -/
def Mtx.inverted (m : Mtx) : Mtx × Bool :=
  if m.det = 0 then (Mtx.id, false)
  else
    (⟨m.d / m.det, -m.b / m.det, -m.c / m.det, m.a / m.det,
      (m.b * m.ty - m.d * m.tx) / m.det,
      (m.c * m.tx - m.a * m.ty) / m.det⟩, true)

/-- Constant `kCrossRadius` from the anonymous namespace of the source. -/
def kCrossRadius : ℚ := 30

/-- Modelled from the spec: `Constant::transMin()` (core/Constant is not
part of the provided sources); the spec fixes only that translation values
are clamped into a fixed valid range `[transMin, transMax]`. -/
def transMin : ℚ := -40000

/-- Modelled from the spec: `Constant::transMax()` (core/Constant is not
part of the provided sources); paired with `transMin` so that
`transMin ≤ transMax`. -/
def transMax : ℚ := 40000

/-- Modelled from the spec: `xc_clamp` (util/MathUtil.h is not part of the
provided sources); clamps a value into `[lo, hi]`. -/
def xc_clamp (v lo hi : ℚ) : ℚ := max lo (min hi v)

/-- The clamped vector written by `moveCentroid` (source lines 103–105). -/
def clampVec (v : Vec2) : Vec2 :=
  ⟨xc_clamp v.x transMin transMax, xc_clamp v.y transMin transMax⟩

/-- Time-key channel kinds used by `pushEventTarget`. -/
inductive TimeKeyType where
  | srt
  | image
  deriving DecidableEq, Repr

/-- One `(entity, channel-kind, key frame)` triple pushed by
`TimeLineEvent::pushTarget`; the entity is identified by the node id. -/
structure EventTarget where
  node : Nat
  keyType : TimeKeyType
  frame : Int
  deriving DecidableEq, Repr

/-- An `ObjectNode` as seen by this source file: an identity, the
`canHoldChild` predicate, its timeline maps for the SRT and Image channels
(lists of key frames, ordered as the map iteration), and its direct
children. `pushEventTarget` only ever descends one level. -/
structure ObjectNode where
  id : Nat
  canHoldChild : Bool
  srtKeys : List Int
  imageKeys : List Int
  children : List ObjectNode

/-- Embeds `CentroidMode::pushEventTarget` (source lines 142–173): the
node's own SRT keys; then, if the node can hold children, every direct
child's SRT keys, else the node's own Image-channel keys tagged as SRT. -/
def pushEventTarget (n : ObjectNode) : List EventTarget :=
  (n.srtKeys.map fun f => ⟨n.id, TimeKeyType.srt, f⟩) ++
  (if n.canHoldChild then
     (n.children.map fun c => c.srtKeys.map fun f =>
       (⟨c.id, TimeKeyType.srt, f⟩ : EventTarget)).flatten
   else
     n.imageKeys.map fun f => ⟨n.id, TimeKeyType.srt, f⟩)

/-- A `CentroidMover` command as retained on the stack: `fromVal` is the
`aBaseCenter` and `toVal` the (clamped) `aNewCenter` of its construction,
`toVal` being replaced by `modifyValue`. The `id` models pointer identity. -/
structure CentroidMover where
  id : Nat
  fromVal : Vec2
  toVal : Vec2
  deriving DecidableEq, Repr

/-- The command stack as this source uses it: the list of pushed commands
(oldest first) plus a fresh-identity counter modelling allocation. -/
structure Stack where
  cmds : List CentroidMover
  nextId : Nat
  deriving DecidableEq, Repr

/-- Embeds `stack.push(new CentroidMover(target, fromVal, toVal))`. -/
def Stack.push (st : Stack) (fromVal toVal : Vec2) : Stack :=
  { cmds := st.cmds ++ [⟨st.nextId, fromVal, toVal⟩], nextId := st.nextId + 1 }

/-- Embeds `modifyValue` on the retained command: in-place replacement of the retained
command's value; identity of every other command is untouched. -/
def Stack.modifyValue (st : Stack) (i : Nat) (v : Vec2) : Stack :=
  { st with cmds := st.cmds.map fun c => if c.id = i then { c with toVal := v } else c }

/-- Stack well-formedness: every pushed command was allocated before the
fresh counter (automatic for stacks built by `Stack.push` from empty). -/
def Stack.WF (st : Stack) : Prop := ∀ c ∈ st.cmds, c.id < st.nextId

/-- The manipulator's interaction state: `mFocusing`, `mMoving`,
`mBaseVec`, `mBaseCenter`, `mCommandRef` (as a command identity). -/
structure MState where
  focusing : Bool
  moving : Bool
  baseVec : Vec2
  baseCenter : Vec2
  commandRef : Option Nat
  deriving DecidableEq, Repr

/-- The three mutually exclusive cursor event predicates of
`AbstractCursor` (`idle` when none fires this frame). -/
inductive CursorEvent where
  | idle
  | press
  | drag
  | release
  deriving DecidableEq, Repr

/-- One frame of external input to `updateCursor`: the `KeyOwner` matrices
read this frame, the camera, the cursor, and the command stack's
`isModifiable(mCommandRef)` answer for this frame (consulted only when a
command reference is retained). `camScale` is modelled from the spec:
`CameraInfo::toScreenLength` converts a world length to screen by the
camera's uniform (nonnegative) scale. -/
structure Frame where
  mtx : Mtx
  locSRMtx : Mtx
  locMtx : Mtx
  camScale : ℚ
  cursorPos : Vec2
  event : CursorEvent
  modifiable : Bool
  deriving DecidableEq, Repr

/-- Computes `mKeyOwner.mtx * mKeyOwner.locSRMtx` (source line 36). -/
def worldMtx (f : Frame) : Mtx := f.mtx.mul f.locSRMtx

/-- Embeds `CentroidMode::getWorldCentroidPos` (source lines 175–178):
`(mtx * locMtx * QVector3D()).toVector2D()`. -/
def getWorldCentroidPos (f : Frame) : Vec2 :=
  (f.mtx.mul f.locMtx).apply Vec2.zero

/-- The focus test of source line 43,
`toScreenLength((center - curPos).length()) <= kCrossRadius`, compared in
squares (equivalent for the nonnegative quantities involved). -/
def focusCond (f : Frame) : Bool :=
  decide (f.camScale * f.camScale *
    Vec2.lengthSq (getWorldCentroidPos f - f.cursorPos) ≤ kCrossRadius * kCrossRadius)

/-- Observable side effects of one `updateCursor` call beyond the state and
the stack: whether `moveCentroid` ran and whether
`mKeyOwner.updatePosture(...)` was invoked. -/
structure Effects where
  movedCentroid : Bool
  postureUpdated : Bool
  deriving DecidableEq, Repr

def noEffects : Effects := ⟨false, false⟩

/-- Result of one `updateCursor` call: the returned `mod` flag, the new
interaction state, the new command stack, and the frame's side effects. -/
structure StepResult where
  changed : Bool
  state : MState
  stack : Stack
  effects : Effects
  deriving DecidableEq, Repr

/-- Embeds `CentroidMode::moveCentroid` (source lines 99–140): clamp, then
either modify the retained command in place (when one is retained and the
stack reports it modifiable) or construct and push a new command, retaining
its identity. -/
def moveCentroid (modifiable : Bool) (s : MState) (st : Stack) (aNewCenter : Vec2) :
    MState × Stack :=
  let newCenter := clampVec aNewCenter
  match s.commandRef with
  | some i =>
    if modifiable then (s, st.modifyValue i newCenter)
    else ({ s with commandRef := some st.nextId }, st.push s.baseCenter newCenter)
  | none => ({ s with commandRef := some st.nextId }, st.push s.baseCenter newCenter)

/-- Embeds `CentroidMode::updateCursor` (source lines 34–75). -/
def updateCursor (f : Frame) (s : MState) (st : Stack) : StepResult :=
  let inv := (worldMtx f).inverted
  let worldInvMtx := inv.1
  let hasWorldInv := inv.2
  let curPos := f.cursorPos
  let center := getWorldCentroidPos f
  let prevFocus := s.focusing
  let focusing := focusCond f
  let s1 : MState := { s with focusing := focusing }
  match f.event with
  | CursorEvent.press =>
    if focusing && hasWorldInv then
      let s2 : MState :=
        { s1 with moving := true, baseVec := center - curPos,
                  baseCenter := worldInvMtx.apply center, commandRef := none }
      { changed := true, state := s2, stack := st, effects := noEffects }
    else
      { changed := true, state := s1, stack := st, effects := noEffects }
  | CursorEvent.drag =>
    if s1.moving && hasWorldInv then
      let newLocalCenter := worldInvMtx.apply (curPos + s1.baseVec)
      let ms := moveCentroid f.modifiable s1 st newLocalCenter
      { changed := true, state := ms.1, stack := ms.2,
        effects := { movedCentroid := true, postureUpdated := true } }
    else
      { changed := true, state := s1, stack := st, effects := noEffects }
  | CursorEvent.release =>
    { changed := true, state := { s1 with commandRef := none, moving := false },
      stack := st, effects := noEffects }
  | CursorEvent.idle =>
    { changed := (prevFocus != focusing), state := s1, stack := st, effects := noEffects }

/-- The clamped local target a drag frame writes, given the gesture's
captured `mBaseVec`: `clamp (worldInvMtx * (curPos + baseVec))`. -/
def dragTarget (baseVec : Vec2) (f : Frame) : Vec2 :=
  clampVec (((worldMtx f).inverted).1.apply (f.cursorPos + baseVec))

/-- Runs `updateCursor` over a list of frames, threading state and stack. -/
def runFrames (fs : List Frame) (s : MState) (st : Stack) : MState × Stack :=
  fs.foldl (fun p f => let r := updateCursor f p.1 p.2; (r.state, r.stack)) (s, st)

/-! ### Concrete fixtures used by witnesses and counterexamples -/

/-- The manipulator's state right after construction: all members
value-initialized (`mFocusing()`, `mMoving()`, ...). -/
def initState : MState := ⟨false, false, Vec2.zero, Vec2.zero, none⟩

/-- An empty command stack. -/
def emptyStack : Stack := ⟨[], 0⟩

/-- A frame with identity matrices (handle at the world origin), unit
camera scale, and the given cursor position / event / modifiability. -/
def wFrame (e : CursorEvent) (px py : ℚ) (m : Bool) : Frame :=
  ⟨Mtx.id, Mtx.id, Mtx.id, 1, ⟨px, py⟩, e, m⟩

/-- A frame whose world matrix is singular (zero scale), cursor at the
given position. -/
def wFrameSing (e : CursorEvent) (px py : ℚ) (m : Bool) : Frame :=
  ⟨⟨0, 0, 0, 0, 0, 0⟩, Mtx.id, Mtx.id, 1, ⟨px, py⟩, e, m⟩

/-- A leaf node (3 SRT keys, 1 Image key). -/
def leafNode : ObjectNode := ⟨1, false, [0, 5, 9], [2], []⟩

/-- A leaf node with 3 SRT keys and no Image keys. -/
def leafNodeNoImg : ObjectNode := ⟨1, false, [0, 5, 9], [], []⟩

/-- A child-holding node with 3 own SRT keys and two children of 3 SRT
keys each. -/
def parentNode : ObjectNode :=
  ⟨1, true, [0, 5, 9], [2], [⟨2, false, [1, 2, 3], [], []⟩, ⟨3, false, [4, 5, 6], [7], []⟩]⟩

/-! ### Helper lemmas -/

theorem moveCentroid_state_moving (m : Bool) (s : MState) (st : Stack) (v : Vec2) :
    ((moveCentroid m s st v).1).moving = s.moving := by
  unfold moveCentroid
  cases h : s.commandRef
  · simp
  · cases m <;> simp

theorem Vec2.add_def (u v : Vec2) : u + v = ⟨u.x + v.x, u.y + v.y⟩ := rfl

theorem Vec2.sub_def (u v : Vec2) : u - v = ⟨u.x - v.x, u.y - v.y⟩ := rfl

theorem clampVec_range (v : Vec2) :
    transMin ≤ (clampVec v).x ∧ (clampVec v).x ≤ transMax ∧
    transMin ≤ (clampVec v).y ∧ (clampVec v).y ≤ transMax := by
  unfold clampVec xc_clamp transMin transMax
  refine ⟨le_max_left _ _, ?_, le_max_left _ _, ?_⟩ <;>
    exact max_le (by norm_num) (min_le_left _ _)

theorem runFrames_nil (s : MState) (st : Stack) : runFrames [] s st = (s, st) := rfl

theorem runFrames_cons (f : Frame) (fs : List Frame) (s : MState) (st : Stack) :
    runFrames (f :: fs) s st =
      runFrames fs (updateCursor f s st).state (updateCursor f s st).stack := rfl

theorem runFrames_append (xs ys : List Frame) (s : MState) (st : Stack) :
    runFrames (xs ++ ys) s st =
      runFrames ys (runFrames xs s st).1 (runFrames xs s st).2 := by
  unfold runFrames
  rw [List.foldl_append]

theorem foldl_overwrite_last {α β : Type} (g : α → β) (fs : List α) (init : β)
    (h : fs ≠ []) :
    fs.foldl (fun _ f => g f) init = g (fs.getLast h) := by
  induction fs generalizing init with
  | nil => exact absurd rfl h
  | cons a t ih =>
    cases t with
    | nil => rfl
    | cons b t2 =>
      rw [List.foldl_cons, ih (g a) (List.cons_ne_nil b t2)]
      exact congrArg g (List.getLast_cons (List.cons_ne_nil b t2)).symm

theorem modifyValue_append_last (pre : List CentroidMover) (c : CentroidMover)
    (n i : Nat) (v : Vec2)
    (hpre : ∀ d ∈ pre, d.id ≠ i) (hcid : c.id = i) :
    Stack.modifyValue ⟨pre ++ [c], n⟩ i v = ⟨pre ++ [{ c with toVal := v }], n⟩ := by
  unfold Stack.modifyValue
  simp only [List.map_append, List.map_cons, List.map_nil, if_pos hcid, Stack.mk.injEq,
    and_true]
  have hid : pre.map (fun d => if d.id = i then { d with toVal := v } else d) = pre.map id := by
    apply List.map_congr_left
    intro d hd
    rw [if_neg (hpre d hd)]
    rfl
  rw [hid, List.map_id]

theorem updateCursor_press_enter (f : Frame) (s : MState) (st : Stack)
    (he : f.event = CursorEvent.press) (hfoc : focusCond f = true)
    (hinv : ((worldMtx f).inverted).2 = true) :
    updateCursor f s st =
      ⟨true, ⟨true, true, getWorldCentroidPos f - f.cursorPos,
        ((worldMtx f).inverted).1.apply (getWorldCentroidPos f), none⟩, st, noEffects⟩ := by
  simp [updateCursor, he, hfoc, hinv]

theorem updateCursor_release_eq (f : Frame) (s : MState) (st : Stack)
    (he : f.event = CursorEvent.release) :
    updateCursor f s st =
      ⟨true, { s with focusing := focusCond f, moving := false, commandRef := none },
       st, noEffects⟩ := by
  simp [updateCursor, he]

theorem updateCursor_drag_push_of_none (f : Frame) (s : MState) (st : Stack)
    (he : f.event = CursorEvent.drag) (hm : s.moving = true)
    (hinv : ((worldMtx f).inverted).2 = true) (href : s.commandRef = none) :
    updateCursor f s st =
      ⟨true, { s with focusing := focusCond f, commandRef := some st.nextId },
       st.push s.baseCenter (dragTarget s.baseVec f), ⟨true, true⟩⟩ := by
  simp [updateCursor, he, hm, hinv, moveCentroid, href, dragTarget]

theorem updateCursor_drag_modify (f : Frame) (s : MState) (st : Stack) (i : Nat)
    (he : f.event = CursorEvent.drag) (hm : s.moving = true)
    (hinv : ((worldMtx f).inverted).2 = true)
    (href : s.commandRef = some i) (hmod : f.modifiable = true) :
    updateCursor f s st =
      ⟨true, { s with focusing := focusCond f },
       st.modifyValue i (dragTarget s.baseVec f), ⟨true, true⟩⟩ := by
  simp [updateCursor, he, hm, hinv, moveCentroid, href, hmod, dragTarget]

theorem runFrames_drag_tail (fs : List Frame) (s : MState) (pre : List CentroidMover)
    (c : CentroidMover) (n i : Nat)
    (hfs : ∀ f ∈ fs, f.event = CursorEvent.drag ∧ ((worldMtx f).inverted).2 = true ∧
      f.modifiable = true)
    (hm : s.moving = true) (href : s.commandRef = some i)
    (hpre : ∀ d ∈ pre, d.id ≠ i) (hcid : c.id = i) :
    ∃ s2 c2, runFrames fs s ⟨pre ++ [c], n⟩ = (s2, ⟨pre ++ [c2], n⟩) ∧
      s2.moving = true ∧ s2.commandRef = some i ∧ s2.baseVec = s.baseVec ∧
      c2.id = i ∧ c2.fromVal = c.fromVal ∧
      c2.toVal = fs.foldl (fun _ f => dragTarget s.baseVec f) c.toVal := by
  induction fs generalizing s c with
  | nil => exact ⟨s, c, rfl, hm, href, rfl, hcid, rfl, rfl⟩
  | cons f ft ih =>
    obtain ⟨he, hinv, hmod⟩ := hfs f (List.mem_cons_self f ft)
    have hstep := updateCursor_drag_modify f s ⟨pre ++ [c], n⟩ i he hm hinv href hmod
    rw [runFrames_cons, hstep]
    simp only [modifyValue_append_last pre c n i (dragTarget s.baseVec f) hpre hcid]
    obtain ⟨s2, c2, hrun, h1, h2, h3, h4, h5, h6⟩ :=
      ih ({ s with focusing := focusCond f }) ({ c with toVal := dragTarget s.baseVec f })
        (fun g hg => hfs g (List.mem_cons_of_mem f hg)) hm href hcid
    refine ⟨s2, c2, hrun, h1, h2, h3, h4, h5, ?_⟩
    rw [List.foldl_cons]
    exact h6

theorem wFrame_inverted (e : CursorEvent) (px py : ℚ) (m : Bool) :
    (worldMtx (wFrame e px py m)).inverted = (Mtx.id, true) := by
  norm_num [worldMtx, wFrame, Mtx.mul, Mtx.id, Mtx.inverted, Mtx.det]

theorem gesture_run_spec (pf rel d1 : Frame) (rest : List Frame)
    (s0 : MState) (st0 : Stack)
    (hp : pf.event = CursorEvent.press) (hfoc : focusCond pf = true)
    (hpinv : ((worldMtx pf).inverted).2 = true)
    (hd : ∀ f ∈ d1 :: rest, f.event = CursorEvent.drag ∧ ((worldMtx f).inverted).2 = true)
    (hmod : ∀ f ∈ rest, f.modifiable = true)
    (hr : rel.event = CursorEvent.release) (hwf : st0.WF) :
    ∃ c s3, runFrames (pf :: ((d1 :: rest) ++ [rel])) s0 st0 =
        (s3, ⟨st0.cmds ++ [c], st0.nextId + 1⟩) ∧
      s3.moving = false ∧ s3.commandRef = none ∧
      c.id = st0.nextId ∧
      c.fromVal = ((worldMtx pf).inverted).1.apply (getWorldCentroidPos pf) ∧
      c.toVal = rest.foldl
        (fun _ f => dragTarget (getWorldCentroidPos pf - pf.cursorPos) f)
        (dragTarget (getWorldCentroidPos pf - pf.cursorPos) d1) := by
  obtain ⟨he1, hinv1⟩ := hd d1 (List.mem_cons_self d1 rest)
  rw [runFrames_cons, updateCursor_press_enter pf s0 st0 hp hfoc hpinv]
  dsimp only
  rw [List.cons_append, runFrames_cons,
    updateCursor_drag_push_of_none d1
      ⟨true, true, getWorldCentroidPos pf - pf.cursorPos,
        ((worldMtx pf).inverted).1.apply (getWorldCentroidPos pf), none⟩
      st0 he1 rfl hinv1 rfl]
  dsimp only
  simp only [Stack.push]
  rw [runFrames_append]
  obtain ⟨s2, c2, hrun, h1, h2, h3, h4, h5, h6⟩ :=
    runFrames_drag_tail rest
      ⟨focusCond d1, true, getWorldCentroidPos pf - pf.cursorPos,
        ((worldMtx pf).inverted).1.apply (getWorldCentroidPos pf), some st0.nextId⟩
      st0.cmds
      ⟨st0.nextId, ((worldMtx pf).inverted).1.apply (getWorldCentroidPos pf),
        dragTarget (getWorldCentroidPos pf - pf.cursorPos) d1⟩
      (st0.nextId + 1) st0.nextId
      (fun g hg => ⟨(hd g (List.mem_cons_of_mem d1 hg)).1,
        (hd g (List.mem_cons_of_mem d1 hg)).2, hmod g hg⟩)
      rfl rfl (fun d hd0 => Nat.ne_of_lt (hwf d hd0)) rfl
  rw [hrun, runFrames_cons, runFrames_nil, updateCursor_release_eq rel s2 _ hr]
  dsimp only
  exact ⟨c2, _, rfl, rfl, rfl, h4, h5, h6⟩

/-! ### Claim theorems -/

/-- C9: an `updateCursor` call carrying a left-release event leaves the
command stack unchanged (in particular no command is pushed when no drag
occurred in the gesture), sets `moving` to false, drops the retained
command reference, and returns true. -/
theorem release_without_drag_pushes_nothing (f : Frame) (s : MState) (st : Stack)
    (h : f.event = CursorEvent.release) :
    (updateCursor f s st).stack = st ∧
    (updateCursor f s st).state.moving = false ∧
    (updateCursor f s st).state.commandRef = none ∧
    (updateCursor f s st).changed = true := by
  simp [updateCursor, h]

theorem release_without_drag_pushes_nothing_witness :
    (updateCursor (wFrame CursorEvent.release 0 0 true) initState emptyStack).stack = emptyStack ∧
    (updateCursor (wFrame CursorEvent.release 0 0 true) initState emptyStack).state.moving = false ∧
    (updateCursor (wFrame CursorEvent.release 0 0 true) initState emptyStack).state.commandRef
      = none ∧
    (updateCursor (wFrame CursorEvent.release 0 0 true) initState emptyStack).changed = true :=
  release_without_drag_pushes_nothing (wFrame CursorEvent.release 0 0 true) initState
    emptyStack rfl

/-- C10: only a left-release clears `moving`: on any frame whose event is
not a release (idle, press, drag — including frames where focusing is lost
or the world matrix is singular), a moving manipulator stays moving. -/
theorem moving_cleared_only_by_release (f : Frame) (s : MState) (st : Stack)
    (hm : s.moving = true) (h : f.event ≠ CursorEvent.release) :
    (updateCursor f s st).state.moving = true := by
  cases he : f.event
  · simp [updateCursor, he, hm]
  · simp only [updateCursor, he]
    split
    · simp
    · simp [hm]
  · simp only [updateCursor, he]
    split
    · simp [moveCentroid_state_moving, hm]
    · simp [hm]
  · exact absurd he h

theorem moving_cleared_only_by_release_witness :
    (updateCursor (wFrameSing CursorEvent.drag 500 0 true)
      { initState with moving := true } emptyStack).state.moving = true :=
  moving_cleared_only_by_release (wFrameSing CursorEvent.drag 500 0 true)
    { initState with moving := true } emptyStack rfl (by decide)

/-- C7: when `mtx * locSRMtx` is singular, the call still completes: a
press does not enter drag mode (state changes only by the focus
recomputation, stack untouched, no effects), a drag performs no centroid
move and no posture update, and in every case `focusing` is recomputed by
the same screen-distance formula `focusCond` used on invertible frames. -/
theorem singular_world_matrix_skips_position_ops (f : Frame) (s : MState) (st : Stack)
    (hdet : (worldMtx f).det = 0) :
    (updateCursor f s st).state.focusing = focusCond f ∧
    (f.event = CursorEvent.press →
      updateCursor f s st =
        ⟨true, { s with focusing := focusCond f }, st, noEffects⟩) ∧
    (f.event = CursorEvent.drag →
      updateCursor f s st =
        ⟨true, { s with focusing := focusCond f }, st, noEffects⟩) := by
  have hinv : (worldMtx f).inverted = (Mtx.id, false) := by
    unfold Mtx.inverted
    simp [hdet]
  refine ⟨?_, ?_, ?_⟩
  · cases he : f.event <;> simp [updateCursor, he, hinv]
  · intro he
    simp [updateCursor, he, hinv]
  · intro he
    simp [updateCursor, he, hinv]

theorem singular_world_matrix_skips_position_ops_witness :
    (updateCursor (wFrameSing CursorEvent.drag 1 2 true)
        { initState with moving := true } emptyStack).state.focusing
      = focusCond (wFrameSing CursorEvent.drag 1 2 true) ∧
    (updateCursor (wFrameSing CursorEvent.drag 1 2 true)
        { initState with moving := true } emptyStack
      = ⟨true, { { initState with moving := true } with
                 focusing := focusCond (wFrameSing CursorEvent.drag 1 2 true) },
         emptyStack, noEffects⟩) := by
  have h := singular_world_matrix_skips_position_ops (wFrameSing CursorEvent.drag 1 2 true)
    { initState with moving := true } emptyStack
    (by norm_num [worldMtx, wFrameSing, Mtx.mul, Mtx.det, Mtx.id])
  exact ⟨h.1, h.2.2 rfl⟩

/-- C8: with no press/drag/release event, one `updateCursor` call fixes the
state; any further call with the identical frame returns `changed = false`
and performs no writes at all (state, stack and effects unchanged), and
already the first call leaves the stack untouched with no effects. -/
theorem idle_updateCursor_idempotent (f : Frame) (s : MState) (st : Stack)
    (h : f.event = CursorEvent.idle) :
    updateCursor f (updateCursor f s st).state (updateCursor f s st).stack =
      ⟨false, (updateCursor f s st).state, (updateCursor f s st).stack, noEffects⟩ ∧
    (updateCursor f s st).stack = st ∧
    (updateCursor f s st).effects = noEffects := by
  simp [updateCursor, h]

theorem idle_updateCursor_idempotent_witness :
    updateCursor (wFrame CursorEvent.idle 1 2 true)
        (updateCursor (wFrame CursorEvent.idle 1 2 true) initState emptyStack).state
        (updateCursor (wFrame CursorEvent.idle 1 2 true) initState emptyStack).stack =
      ⟨false, (updateCursor (wFrame CursorEvent.idle 1 2 true) initState emptyStack).state,
        (updateCursor (wFrame CursorEvent.idle 1 2 true) initState emptyStack).stack,
        noEffects⟩ ∧
    (updateCursor (wFrame CursorEvent.idle 1 2 true) initState emptyStack).stack = emptyStack ∧
    (updateCursor (wFrame CursorEvent.idle 1 2 true) initState emptyStack).effects = noEffects :=
  idle_updateCursor_idempotent (wFrame CursorEvent.idle 1 2 true) initState emptyStack rfl

/-- C2: on a drag frame (moving, invertible world matrix), if the
manipulator retains no command reference or the stack reports the retained
command not modifiable, `moveCentroid` constructs and pushes a new command
(recording the press-time base center and the clamped drag target) and
retains its identity, rather than mutating the previous command. -/
theorem stale_or_missing_ref_pushes_new_command (f : Frame) (s : MState) (st : Stack)
    (he : f.event = CursorEvent.drag) (hm : s.moving = true)
    (hinv : ((worldMtx f).inverted).2 = true)
    (hstale : s.commandRef = none ∨ f.modifiable = false) :
    (updateCursor f s st).stack = st.push s.baseCenter (dragTarget s.baseVec f) ∧
    (updateCursor f s st).state.commandRef = some st.nextId := by
  rcases hstale with hr | hmod
  · simp [updateCursor, he, hm, hinv, moveCentroid, hr, dragTarget]
  · cases hr : s.commandRef
    · simp [updateCursor, he, hm, hinv, moveCentroid, hr, dragTarget]
    · simp [updateCursor, he, hm, hinv, moveCentroid, hr, hmod, dragTarget]

theorem stale_or_missing_ref_pushes_new_command_witness :
    (updateCursor (wFrame CursorEvent.drag 3 4 false)
        ⟨false, true, Vec2.zero, Vec2.zero, some 0⟩
        ⟨[⟨0, Vec2.zero, ⟨1, 1⟩⟩], 1⟩).stack =
      Stack.push ⟨[⟨0, Vec2.zero, ⟨1, 1⟩⟩], 1⟩ Vec2.zero
        (dragTarget Vec2.zero (wFrame CursorEvent.drag 3 4 false)) ∧
    (updateCursor (wFrame CursorEvent.drag 3 4 false)
        ⟨false, true, Vec2.zero, Vec2.zero, some 0⟩
        ⟨[⟨0, Vec2.zero, ⟨1, 1⟩⟩], 1⟩).state.commandRef = some 1 :=
  stale_or_missing_ref_pushes_new_command (wFrame CursorEvent.drag 3 4 false)
    ⟨false, true, Vec2.zero, Vec2.zero, some 0⟩ ⟨[⟨0, Vec2.zero, ⟨1, 1⟩⟩], 1⟩
    rfl rfl
    (by norm_num [worldMtx, wFrame, Mtx.mul, Mtx.id, Mtx.inverted, Mtx.det])
    (Or.inr rfl)

/-- C4: every command present in the stack after a `moveCentroid` call is
either a command that was already there (untouched) or carries a written
value whose x and y components are clamped into `[transMin, transMax]`,
whatever the unclamped input was. -/
theorem moveCentroid_writes_clamped_values (m : Bool) (s : MState) (st : Stack) (v : Vec2)
    (c : CentroidMover) (hc : c ∈ ((moveCentroid m s st v).2).cmds) :
    c ∈ st.cmds ∨
      (transMin ≤ c.toVal.x ∧ c.toVal.x ≤ transMax ∧
       transMin ≤ c.toVal.y ∧ c.toVal.y ≤ transMax) := by
  unfold moveCentroid at hc
  cases hr : s.commandRef with
  | none =>
    rw [hr] at hc
    simp only [Stack.push, List.mem_append, List.mem_singleton] at hc
    rcases hc with hc | hc
    · exact Or.inl hc
    · subst hc
      exact Or.inr (clampVec_range v)
  | some i =>
    rw [hr] at hc
    cases m with
    | false =>
      simp only [Bool.false_eq_true, if_false, Stack.push, List.mem_append,
        List.mem_singleton] at hc
      rcases hc with hc | hc
      · exact Or.inl hc
      · subst hc
        exact Or.inr (clampVec_range v)
    | true =>
      simp only [if_true, Stack.modifyValue, List.mem_map] at hc
      rcases hc with ⟨a, ha, hac⟩
      by_cases hid : a.id = i
      · rw [if_pos hid] at hac
        subst hac
        exact Or.inr (clampVec_range v)
      · rw [if_neg hid] at hac
        subst hac
        exact Or.inl ha

theorem moveCentroid_writes_clamped_values_witness :
    (⟨0, Vec2.zero, ⟨40000, -40000⟩⟩ : CentroidMover) ∈
      ((moveCentroid true initState emptyStack ⟨99999, -99999⟩).2).cmds ∧
    ((⟨0, Vec2.zero, ⟨40000, -40000⟩⟩ : CentroidMover) ∈ emptyStack.cmds ∨
      (transMin ≤ ((40000 : ℚ)) ∧ ((40000 : ℚ)) ≤ transMax ∧
       transMin ≤ ((-40000 : ℚ)) ∧ ((-40000 : ℚ)) ≤ transMax)) := by
  have hm : (⟨0, Vec2.zero, ⟨40000, -40000⟩⟩ : CentroidMover) ∈
      ((moveCentroid true initState emptyStack ⟨99999, -99999⟩).2).cmds := by
    norm_num [moveCentroid, initState, emptyStack, Stack.push, clampVec, xc_clamp,
      transMin, transMax, Vec2.zero, min_def, max_def]
  exact ⟨hm, moveCentroid_writes_clamped_values true initState emptyStack
    ⟨99999, -99999⟩ ⟨0, Vec2.zero, ⟨40000, -40000⟩⟩ hm⟩

/-- C5 counterexample: a leaf node (cannot hold children) with exactly 3
transform-channel keyframes but one image-channel keyframe yields 4 event
targets, not 3 — the `else` branch of `pushEventTarget` additionally
enumerates the image-channel keys. -/
theorem leaf_with_image_key_yields_four_targets :
    leafNode.canHoldChild = false ∧ leafNode.srtKeys.length = 3 ∧
    (pushEventTarget leafNode).length ≠ 3 := by
  refine ⟨rfl, rfl, ?_⟩
  decide

/-- C5 (amended): a child-holding node whose own transform channel has 3
keys and whose 2 direct children have 3 transform keys each yields exactly
9 targets; a leaf node with exactly 3 transform-channel keyframes and no
image-channel keyframes yields exactly 3 targets. -/
theorem pushEventTarget_count_amended (n : ObjectNode) :
    (n.canHoldChild = true → n.srtKeys.length = 3 →
      (n.children.map fun c => c.srtKeys.length) = [3, 3] →
      (pushEventTarget n).length = 9) ∧
    (n.canHoldChild = false → n.srtKeys.length = 3 → n.imageKeys = [] →
      (pushEventTarget n).length = 3) := by
  constructor
  · intro hold hn hc
    have hflat : ((n.children.map fun c => c.srtKeys.map fun f =>
        (⟨c.id, TimeKeyType.srt, f⟩ : EventTarget)).flatten).length = 6 := by
      rw [List.length_flatten, List.map_map]
      have hcomp : (List.length ∘ fun c : ObjectNode => c.srtKeys.map fun f =>
          (⟨c.id, TimeKeyType.srt, f⟩ : EventTarget)) =
          fun c : ObjectNode => c.srtKeys.length := by
        funext c
        simp
      rw [hcomp, hc]
      rfl
    simp [pushEventTarget, hold, hn, hflat]
  · intro hold hn himg
    simp [pushEventTarget, hold, hn, himg]

theorem pushEventTarget_count_amended_witness :
    (pushEventTarget parentNode).length = 9 ∧ (pushEventTarget leafNodeNoImg).length = 3 :=
  ⟨(pushEventTarget_count_amended parentNode).1 rfl rfl rfl,
   (pushEventTarget_count_amended leafNodeNoImg).2 rfl rfl rfl⟩

/-- C6: for a node that cannot hold children, `pushEventTarget` enumerates
its transform-channel keys and additionally its image-channel keys, one
target per key, every target tagged with the transform-key channel kind, so
the total count is the transform-key count plus the image-key count. -/
theorem leaf_enumerates_srt_and_image_keys (n : ObjectNode)
    (h : n.canHoldChild = false) :
    (pushEventTarget n).length = n.srtKeys.length + n.imageKeys.length ∧
    ∀ t ∈ pushEventTarget n, t.keyType = TimeKeyType.srt := by
  constructor
  · simp [pushEventTarget, h]
  · intro t ht
    simp only [pushEventTarget, h, Bool.false_eq_true, if_false, List.mem_append,
      List.mem_map] at ht
    rcases ht with ⟨f, _, rfl⟩ | ⟨f, _, rfl⟩ <;> rfl

theorem leaf_enumerates_srt_and_image_keys_witness :
    (pushEventTarget leafNode).length = leafNode.srtKeys.length + leafNode.imageKeys.length ∧
    ∀ t ∈ pushEventTarget leafNode, t.keyType = TimeKeyType.srt :=
  leaf_enumerates_srt_and_image_keys leafNode rfl

/-- C1: a full gesture — a left-press on a focused handle with invertible
world matrix, then N ≥ 1 left-drags (each invertible), the stack reporting
the retained command modifiable at every drag after the first, then a
left-release — pushes exactly one command: the final stack is the initial
one with a single appended command (allocated once: `nextId` grew by one),
every later drag having mutated that same command in place. -/
theorem gesture_pushes_exactly_one_command (pf rel : Frame) (drags : List Frame)
    (s0 : MState) (st0 : Stack)
    (hp : pf.event = CursorEvent.press) (hfoc : focusCond pf = true)
    (hpinv : ((worldMtx pf).inverted).2 = true)
    (hne : drags ≠ [])
    (hd : ∀ f ∈ drags, f.event = CursorEvent.drag ∧ ((worldMtx f).inverted).2 = true)
    (hmod : ∀ f ∈ drags.tail, f.modifiable = true)
    (hr : rel.event = CursorEvent.release) (hwf : st0.WF) :
    ∃ c : CentroidMover,
      (runFrames (pf :: (drags ++ [rel])) s0 st0).2.cmds = st0.cmds ++ [c] ∧
      c.id = st0.nextId ∧
      (runFrames (pf :: (drags ++ [rel])) s0 st0).2.nextId = st0.nextId + 1 ∧
      (runFrames (pf :: (drags ++ [rel])) s0 st0).1.moving = false ∧
      (runFrames (pf :: (drags ++ [rel])) s0 st0).1.commandRef = none := by
  obtain ⟨d1, rest, rfl⟩ : ∃ d1 rest, drags = d1 :: rest := by
    cases drags with
    | nil => exact absurd rfl hne
    | cons a t => exact ⟨a, t, rfl⟩
  obtain ⟨c, s3, hrun, hm3, hcr3, hid, hfrom, hto⟩ :=
    gesture_run_spec pf rel d1 rest s0 st0 hp hfoc hpinv hd hmod hr hwf
  rw [hrun]
  exact ⟨c, rfl, hid, rfl, hm3, hcr3⟩

theorem gesture_pushes_exactly_one_command_witness :
    ∃ c : CentroidMover,
      (runFrames (wFrame CursorEvent.press 0 0 true ::
          ([wFrame CursorEvent.drag 3 4 true, wFrame CursorEvent.drag 5 6 true] ++
            [wFrame CursorEvent.release 5 6 true])) initState emptyStack).2.cmds =
        emptyStack.cmds ++ [c] ∧
      c.id = emptyStack.nextId ∧
      (runFrames (wFrame CursorEvent.press 0 0 true ::
          ([wFrame CursorEvent.drag 3 4 true, wFrame CursorEvent.drag 5 6 true] ++
            [wFrame CursorEvent.release 5 6 true])) initState emptyStack).2.nextId =
        emptyStack.nextId + 1 ∧
      (runFrames (wFrame CursorEvent.press 0 0 true ::
          ([wFrame CursorEvent.drag 3 4 true, wFrame CursorEvent.drag 5 6 true] ++
            [wFrame CursorEvent.release 5 6 true])) initState emptyStack).1.moving = false ∧
      (runFrames (wFrame CursorEvent.press 0 0 true ::
          ([wFrame CursorEvent.drag 3 4 true, wFrame CursorEvent.drag 5 6 true] ++
            [wFrame CursorEvent.release 5 6 true])) initState emptyStack).1.commandRef
        = none := by
  apply gesture_pushes_exactly_one_command
  · rfl
  · simp only [focusCond, decide_eq_true_eq]
    norm_num [wFrame, getWorldCentroidPos, Mtx.mul, Mtx.id, Mtx.apply, Vec2.zero,
      Vec2.sub_def, Vec2.lengthSq, kCrossRadius]
  · rw [wFrame_inverted]
  · simp
  · intro f hf
    simp only [List.mem_cons, List.not_mem_nil, or_false] at hf
    rcases hf with rfl | rfl
    · exact ⟨rfl, by rw [wFrame_inverted]⟩
    · exact ⟨rfl, by rw [wFrame_inverted]⟩
  · intro f hf
    simp only [List.tail_cons, List.mem_singleton] at hf
    subst hf
    rfl
  · rfl
  · intro c hc
    simp [emptyStack] at hc

/-- C3: the single command a gesture constructs records as its "from" value
the handle's local position captured at press time (the world centroid
mapped through the inverse of `mtx * locSRMtx` of the press frame), and as
its "to" value the clamped local position obtained from the final drag
frame: `clamp (inverse * (cursor + baseVec))` with `baseVec` the
handle-minus-cursor offset captured at press time. -/
theorem gesture_command_from_to_values (pf rel : Frame) (drags : List Frame)
    (s0 : MState) (st0 : Stack)
    (hp : pf.event = CursorEvent.press) (hfoc : focusCond pf = true)
    (hpinv : ((worldMtx pf).inverted).2 = true)
    (hne : drags ≠ [])
    (hd : ∀ f ∈ drags, f.event = CursorEvent.drag ∧ ((worldMtx f).inverted).2 = true)
    (hmod : ∀ f ∈ drags.tail, f.modifiable = true)
    (hr : rel.event = CursorEvent.release) (hwf : st0.WF) :
    ∃ c : CentroidMover,
      (runFrames (pf :: (drags ++ [rel])) s0 st0).2.cmds = st0.cmds ++ [c] ∧
      c.fromVal = ((worldMtx pf).inverted).1.apply (getWorldCentroidPos pf) ∧
      c.toVal = dragTarget (getWorldCentroidPos pf - pf.cursorPos) (drags.getLast hne) := by
  obtain ⟨d1, rest, rfl⟩ : ∃ d1 rest, drags = d1 :: rest := by
    cases drags with
    | nil => exact absurd rfl hne
    | cons a t => exact ⟨a, t, rfl⟩
  obtain ⟨c, s3, hrun, hm3, hcr3, hid, hfrom, hto⟩ :=
    gesture_run_spec pf rel d1 rest s0 st0 hp hfoc hpinv hd hmod hr hwf
  rw [hrun]
  refine ⟨c, rfl, hfrom, ?_⟩
  exact hto.trans (foldl_overwrite_last
    (dragTarget (getWorldCentroidPos pf - pf.cursorPos)) (d1 :: rest)
    (dragTarget (getWorldCentroidPos pf - pf.cursorPos) d1) (List.cons_ne_nil d1 rest))

theorem gesture_command_from_to_values_witness :
    ∃ c : CentroidMover,
      (runFrames (wFrame CursorEvent.press 1 0 true ::
          ([wFrame CursorEvent.drag 3 4 true, wFrame CursorEvent.drag 5 6 true] ++
            [wFrame CursorEvent.release 5 6 true])) initState emptyStack).2.cmds =
        emptyStack.cmds ++ [c] ∧
      c.fromVal = ((worldMtx (wFrame CursorEvent.press 1 0 true)).inverted).1.apply
        (getWorldCentroidPos (wFrame CursorEvent.press 1 0 true)) ∧
      c.toVal = dragTarget
        (getWorldCentroidPos (wFrame CursorEvent.press 1 0 true) -
          (wFrame CursorEvent.press 1 0 true).cursorPos)
        ([wFrame CursorEvent.drag 3 4 true,
          wFrame CursorEvent.drag 5 6 true].getLast (by simp)) := by
  apply gesture_command_from_to_values
  · rfl
  · simp only [focusCond, decide_eq_true_eq]
    norm_num [wFrame, getWorldCentroidPos, Mtx.mul, Mtx.id, Mtx.apply, Vec2.zero,
      Vec2.sub_def, Vec2.lengthSq, kCrossRadius]
  · rw [wFrame_inverted]
  · intro f hf
    simp only [List.mem_cons, List.not_mem_nil, or_false] at hf
    rcases hf with rfl | rfl
    · exact ⟨rfl, by rw [wFrame_inverted]⟩
    · exact ⟨rfl, by rw [wFrame_inverted]⟩
  · intro f hf
    simp only [List.tail_cons, List.mem_singleton] at hf
    subst hf
    rfl
  · rfl
  · intro c hc
    simp [emptyStack] at hc

end AeSrt
